import Mathlib

/-!
Verification of the Masquerade snap core (origin-scoped identities, the origin
link graph, sessions, and deterministic key derivation).

The request handlers are translated from the source
(`packages/snap/src/protocols/identity.ts` and `packages/snap/src/utils.ts`).
The `StateManager` class they call (`packages/snap/src/state.ts`) is not part
of the provided sources, so its operations (`getOriginData`, `setOriginData`,
`linkExists`, `link`, `unlink`, `addIdentity`) are modelled from the spec
(sections 4.2 and 4.4).  External collaborators (the snap entropy source,
SHA-256, secp256k1 key operations, principal encoding) are abstracted as
function parameters collected in `Hosts`.
-/

namespace Msq

/-- Website origin: a canonical string identifier (src: `ZOrigin`). -/
abbrev TOrigin := String

/-- Identity index: a non-negative integer (src: `ZIdentityId`). -/
abbrev TIdentityId := Nat

/-- Session record (src: `ZSession`): identity id, derivation origin
(spelled `deriviationOrigin` in the source), timestamp in milliseconds. -/
structure ISession where
  identityId : TIdentityId
  deriviationOrigin : TOrigin
  timestampMs : Int
deriving Repr, DecidableEq

/-- Per-origin record (src: `ZOriginData` as used by the handlers):
identity count, incoming links, outgoing links, optional current session. -/
structure IOriginData where
  identitiesTotal : Nat
  linksFrom : List TOrigin
  linksTo : List TOrigin
  currentSession : Option ISession
deriving Repr, DecidableEq

/-- Fresh default origin data: zero identities, empty link sets, no session
(spec 4.4: a freshly materialized default). -/
def defaultOriginData : IOriginData :=
  { identitiesTotal := 0, linksFrom := [], linksTo := [], currentSession := none }

/-- Top-level persisted state (src: `ZState.originData`), as an association
list from origin to origin data.  The `siteSession` field takes no part in any
of the handlers below and is omitted. -/
structure IState where
  originData : List (TOrigin × IOriginData)
deriving Repr, DecidableEq

/-- The empty (default) state a fresh snap starts from. -/
def emptyState : IState := ⟨[]⟩

/-- Modelled from the spec: `StateManager.getOriginData` (spec 4.4) — returns
the existing entry or a freshly materialized default. -/
def getOriginData (st : IState) (origin : TOrigin) : IOriginData :=
  match st.originData.lookup origin with
  | some d => d
  | none => defaultOriginData

/-- Modelled from the spec: `StateManager.setOriginData` (spec 4.4) — replaces
the stored entry wholesale. -/
def setOriginData (st : IState) (origin : TOrigin) (d : IOriginData) : IState :=
  ⟨(origin, d) :: st.originData.filter (fun p => p.1 != origin)⟩

/-- Modelled from the spec: `LinkGraph.exists` (spec 4.2) — true iff
`otherOrigin ∈ linksTo(origin)`. -/
def linkExists (st : IState) (origin otherOrigin : TOrigin) : Bool :=
  (getOriginData st origin).linksTo.contains otherOrigin

/-- Modelled from the spec: `LinkGraph.link` (spec 4.2) — adds the edge in both
directional sets; a no-op on a self-link or an already-existing edge. -/
def link (st : IState) (origin otherOrigin : TOrigin) : IState :=
  if origin == otherOrigin || linkExists st origin otherOrigin then st
  else
    let d1 := getOriginData st origin
    let st1 := setOriginData st origin { d1 with linksTo := d1.linksTo ++ [otherOrigin] }
    let d2 := getOriginData st1 otherOrigin
    setOriginData st1 otherOrigin { d2 with linksFrom := d2.linksFrom ++ [origin] }

/-- Modelled from the spec: `LinkGraph.unlink` (spec 4.2) — removes the edge
from both directional sets if present; a no-op if absent. -/
def unlink (st : IState) (origin otherOrigin : TOrigin) : IState :=
  let d1 := getOriginData st origin
  let st1 := setOriginData st origin { d1 with linksTo := d1.linksTo.filter (· != otherOrigin) }
  let d2 := getOriginData st1 otherOrigin
  setOriginData st1 otherOrigin { d2 with linksFrom := d2.linksFrom.filter (· != origin) }

/-- Modelled from the spec: `StateManager.addIdentity` (spec 4.4) — increments
`identitiesTotal`. -/
def addIdentity (st : IState) (origin : TOrigin) : IState :=
  let d := getOriginData st origin
  setOriginData st origin { d with identitiesTotal := d.identitiesTotal + 1 }

/-- Error kinds raised by the handlers (src: `ErrorCode` / `unreacheable`,
spelled as in the source). -/
inductive ErrorCode where
  | unauthorized
  | invalidInput
  | unreacheable
deriving Repr, DecidableEq

/-- src: `protected_handleIdentityAdd` — registers one more identity for the
origin.  `incrementStats` is observability only (spec 4.4) and is not part of
the modelled state. -/
def protected_handleIdentityAdd (st : IState) (toOrigin : TOrigin) : Bool × IState :=
  (true, addIdentity st toOrigin)

/-- src: `protected_handleIdentityLogin` — creates a session on `toOrigin`.
If a linked origin is requested and differs from `toOrigin`, the link
`linkExists(withLinkedOrigin, toOrigin)` must exist, else UNAUTHORIZED.
Then, if `getOriginData(toOrigin).identitiesTotal === 0`, the handler calls
`unreacheable`.  On success the session is stored and the new state persisted. -/
def protected_handleIdentityLogin (st : IState) (toOrigin : TOrigin)
    (withIdentityId : TIdentityId) (withLinkedOrigin : Option TOrigin) (timestamp : Int) :
    Except ErrorCode (Bool × IState) :=
  if (match withLinkedOrigin with
      | some lo => lo != toOrigin && !(linkExists st lo toOrigin)
      | none => false) then
    .error .unauthorized
  else
    let originData := getOriginData st toOrigin
    if originData.identitiesTotal == 0 then
      .error .unreacheable
    else
      let session : ISession :=
        { deriviationOrigin := withLinkedOrigin.getD toOrigin
          identityId := withIdentityId
          timestampMs := timestamp }
      .ok (true, setOriginData st toOrigin { originData with currentSession := some session })

/-- src: `handleIdentityLogoutRequest` — if no session exists, returns true
unchanged; otherwise asks the user (`agreed` is the dialog outcome) and clears
the session only on consent. -/
def handleIdentityLogoutRequest (st : IState) (origin : TOrigin) (agreed : Bool) :
    Bool × IState :=
  let originData := getOriginData st origin
  match originData.currentSession with
  | none => (true, st)
  | some _ =>
    if agreed == false then (false, st)
    else (true, setOriginData st origin { originData with currentSession := none })

/-- src: `handleIdentityLinkRequest` — rejects a self-link, returns true at
once when the edge already exists (no dialog), asks the user otherwise, and
adds the edge only on consent.  `agreed` is the dialog outcome. -/
def handleIdentityLinkRequest (st : IState) (origin withOrigin : TOrigin) (agreed : Bool) :
    Except ErrorCode (Bool × IState) :=
  if origin == withOrigin then .error .invalidInput
  else if linkExists st origin withOrigin then .ok (true, st)
  else if agreed == false then .ok (false, st)
  else .ok (true, link st origin withOrigin)

/-- src: `handleIdentityUnlinkRequest` — returns true at once when the edge is
absent (no dialog), asks the user otherwise; on consent removes the edge and
clears `withOrigin`'s session when its derivation origin is the origin being
unlinked.  The source clears the session by mutating the object returned by
`getOriginData` in place; with `StateManager` outside the provided sources this
is modelled, per spec 4.3, as an explicit `setOriginData`. -/
def handleIdentityUnlinkRequest (st : IState) (origin withOrigin : TOrigin) (agreed : Bool) :
    Bool × IState :=
  if !(linkExists st origin withOrigin) then (true, st)
  else if agreed == false then (false, st)
  else
    let st1 := unlink st origin withOrigin
    let targetOriginData := getOriginData st1 withOrigin
    let targetOriginData' :=
      match targetOriginData.currentSession with
      | some s =>
        if s.deriviationOrigin == origin then { targetOriginData with currentSession := none }
        else targetOriginData
      | none => targetOriginData
    (true, setOriginData st1 withOrigin targetOriginData')

/-- src: `handleIdentityGetLinks` — returns the origins this origin exposed
its masks to. -/
def handleIdentityGetLinks (st : IState) (origin : TOrigin) : List TOrigin :=
  (getOriginData st origin).linksTo

/-- src: `handleIdentitySessionExists` — whether a session is present. -/
def handleIdentitySessionExists (st : IState) (origin : TOrigin) : Bool :=
  (getOriginData st origin).currentSession.isSome

/-- External collaborators of the core (spec 6), abstracted as functions:
the snap entropy source (already hex-decoded to bytes), SHA-256, the
secp256k1 raw public key of a secret key, principal text encoding of an
identity, and signing. -/
structure Hosts where
  getEntropyBytes : String → List Nat
  sha256 : List Nat → List Nat
  pubKeyRaw : List Nat → List Nat
  principalOf : List Nat → String
  sign : List Nat → List Nat → List Nat

/-- src: the salt string of `getEntropy` in `utils.ts`:
the template literal built from a fixed namespace tag, the origin, the
identity id (decimal) and the internal salt, separated by newlines. -/
def entropySalt (origin : TOrigin) (identityId : TIdentityId) (internalSalt : String) : String :=
  "\x0amasquerade-snap\n" ++ origin ++ "\n" ++ Nat.repr identityId ++ "\n" ++ internalSalt

/-- src: `getEntropy` in `utils.ts` — request entropy from the host for the
salt label, append the custom salt bytes when present, and hash the result
with SHA-256. -/
def getEntropy (hosts : Hosts) (origin : TOrigin) (identityId : TIdentityId)
    (internalSalt : String) (customSalt : Option (List Nat)) : List Nat :=
  let entropyPreBytes : List Nat :=
    match customSalt with
    | none => hosts.getEntropyBytes (entropySalt origin identityId internalSalt)
    | some cs => hosts.getEntropyBytes (entropySalt origin identityId internalSalt) ++ cs
  hosts.sha256 entropyPreBytes

/-- src: `getSignIdentity` in `utils.ts` — the secp256k1 identity is built
from the derived entropy as its secret key; we model the identity by that
32-byte secret key. -/
def getSignIdentity (hosts : Hosts) (origin : TOrigin) (identityId : TIdentityId)
    (salt : Option (List Nat)) : List Nat :=
  getEntropy hosts origin identityId "identity-sign\nshared" salt

/-- src: `isMasquerade` in `utils.ts` — whether the origin is the Masquerade
site origin (`MSQ_SNAP_SITE_ORIGIN`, a build-time constant, here a
parameter). -/
def isMasquerade (msqOrigin origin : TOrigin) : Bool :=
  origin == msqOrigin

/-- src: `handleIdentitySign` — signs the challenge with the key pair of the
current session; without a session, the Masquerade site origin gets an
implicit session (identity 0, derivation origin itself) and any other origin
gets UNAUTHORIZED. -/
def handleIdentitySign (hosts : Hosts) (msqOrigin : TOrigin) (st : IState) (origin : TOrigin)
    (salt : Option (List Nat)) (challenge : List Nat) :
    Except ErrorCode (List Nat × IState) :=
  let session0 := (getOriginData st origin).currentSession
  match session0 with
  | none =>
    if isMasquerade msqOrigin origin then
      let session : ISession := { deriviationOrigin := origin, identityId := 0, timestampMs := 0 }
      .ok (hosts.sign (getSignIdentity hosts session.deriviationOrigin session.identityId salt)
             challenge, st)
    else
      .error .unauthorized
  | some session =>
    .ok (hosts.sign (getSignIdentity hosts session.deriviationOrigin session.identityId salt)
           challenge, st)

/-- src: the identity-listing loop of `protected_handleIdentityGetLoginOptions`
for one origin: one principal per identity index below `identitiesTotal`,
each obtained through key derivation. -/
def masksOf (hosts : Hosts) (st : IState) (origin : TOrigin) : List String :=
  (List.range (getOriginData st origin).identitiesTotal).map
    (fun i => hosts.principalOf (getSignIdentity hosts origin i none))

/-- src: `protected_handleIdentityGetLoginOptions` — the queried origin's own
group first, then one group per `linksFrom` origin in stored order. -/
def protected_handleIdentityGetLoginOptions (hosts : Hosts) (st : IState) (forOrigin : TOrigin) :
    List (TOrigin × List String) :=
  (forOrigin, masksOf hosts st forOrigin) ::
    (getOriginData st forOrigin).linksFrom.map (fun o => (o, masksOf hosts st o))

/-- The derivation algorithm as the spec words it (spec 4.1): build a label
concatenating a fixed namespace tag with the origin, the identity index and
the purpose label; request entropy for exactly that label; append the custom
salt bytes when present; hash the result with the fixed one-way hash to get
the private key. -/
def specDeriveKey (hosts : Hosts) (origin : TOrigin) (identityIndex : Nat)
    (purposeLabel : String) (customSalt : Option (List Nat)) : List Nat :=
  let label :=
    "\x0amasquerade-snap\n" ++ origin ++ "\n" ++ Nat.repr identityIndex ++ "\n" ++ purposeLabel
  hosts.sha256 (hosts.getEntropyBytes label ++ customSalt.getD [])

/-! ### Decimal representation: `Nat.repr` is injective

`entropySalt` embeds the identity index through `Nat.repr`; input separation
of the derivation label (claim C5) needs that two distinct indices print
differently.  We relate `Nat.toDigitsCore` to a direct recursion and prove
injectivity. -/

/-- Decimal digit characters of a natural number, most significant first:
the fuel-free form of `Nat.toDigits 10`. -/
def decChars (n : Nat) : List Char :=
  if _h : n < 10 then [Nat.digitChar n]
  else decChars (n / 10) ++ [Nat.digitChar (n % 10)]
decreasing_by exact Nat.div_lt_self (by omega) (by omega)

theorem decChars_lt (n : Nat) (h : n < 10) : decChars n = [Nat.digitChar n] := by
  rw [decChars]
  exact dif_pos h

theorem decChars_ge (n : Nat) (h : 10 ≤ n) :
    decChars n = decChars (n / 10) ++ [Nat.digitChar (n % 10)] := by
  rw [decChars]
  exact dif_neg (by omega)

theorem toDigitsCore_eq_decChars (f : Nat) :
    ∀ n ds, n < f → Nat.toDigitsCore 10 f n ds = decChars n ++ ds := by
  induction f with
  | zero => intro n ds h; omega
  | succ f ih =>
    intro n ds h
    show (if n / 10 = 0 then Nat.digitChar (n % 10) :: ds
          else Nat.toDigitsCore 10 f (n / 10) (Nat.digitChar (n % 10) :: ds)) = decChars n ++ ds
    by_cases h10 : n / 10 = 0
    · have hlt : n < 10 := by omega
      rw [if_pos h10, decChars_lt n hlt, Nat.mod_eq_of_lt hlt]
      rfl
    · have hge : 10 ≤ n := by
        by_contra hc
        exact h10 (Nat.div_eq_of_lt (by omega))
      have hdiv : n / 10 < f := by
        have h1 : n / 10 < n := Nat.div_lt_self (by omega) (by omega)
        omega
      rw [if_neg h10, ih (n / 10) _ hdiv, decChars_ge n hge, List.append_assoc]
      rfl

theorem toDigits_eq_decChars (n : Nat) : Nat.toDigits 10 n = decChars n := by
  have := toDigitsCore_eq_decChars (n + 1) n [] (Nat.lt_succ_self n)
  simpa [Nat.toDigits] using this

theorem decChars_ne_nil (n : Nat) : decChars n ≠ [] := by
  rw [decChars]
  split <;> simp

theorem digitChar_inj_lt :
    ∀ a < 10, ∀ b < 10, Nat.digitChar a = Nat.digitChar b → a = b := by decide

theorem decChars_inj (n : Nat) : ∀ m, decChars n = decChars m → n = m := by
  induction n using Nat.strong_induction_on with
  | _ n ih =>
    intro m h
    by_cases hn : n < 10 <;> by_cases hm : m < 10
    · rw [decChars_lt n hn, decChars_lt m hm] at h
      exact digitChar_inj_lt n hn m hm (List.singleton_inj.mp h)
    · rw [decChars_lt n hn, decChars_ge m (by omega)] at h
      have hlen := congrArg List.length h
      have h1 : (decChars (m / 10)).length ≠ 0 :=
        fun hc => decChars_ne_nil (m / 10) (List.length_eq_zero.mp hc)
      simp only [List.length_append, List.length_singleton] at hlen
      omega
    · rw [decChars_ge n (by omega), decChars_lt m hm] at h
      have hlen := congrArg List.length h
      have h1 : (decChars (n / 10)).length ≠ 0 :=
        fun hc => decChars_ne_nil (n / 10) (List.length_eq_zero.mp hc)
      simp only [List.length_append, List.length_singleton] at hlen
      omega
    · rw [decChars_ge n (by omega), decChars_ge m (by omega)] at h
      have hrev := congrArg List.reverse h
      simp only [List.reverse_append, List.reverse_singleton, List.singleton_append,
        List.cons.injEq, List.reverse_inj] at hrev
      have hmod : n % 10 = m % 10 :=
        digitChar_inj_lt (n % 10) (Nat.mod_lt n (by omega)) (m % 10) (Nat.mod_lt m (by omega))
          hrev.1
      have hdivlt : n / 10 < n := Nat.div_lt_self (by omega) (by omega)
      have hdiv : n / 10 = m / 10 := ih (n / 10) hdivlt (m / 10) hrev.2
      omega

theorem nat_repr_inj {n m : Nat} (h : Nat.repr n = Nat.repr m) : n = m := by
  have hd : Nat.toDigits 10 n = Nat.toDigits 10 m := by
    have := congrArg String.data h
    simpa [Nat.repr, List.asString] using this
  rw [toDigits_eq_decChars, toDigits_eq_decChars] at hd
  exact decChars_inj n m hd

/-! ### State lemmas -/

theorem lookup_filter_ne (l : List (TOrigin × IOriginData)) (o x : TOrigin) (h : x ≠ o) :
    (l.filter (fun p => p.1 != o)).lookup x = l.lookup x := by
  induction l with
  | nil => rfl
  | cons hd tl ih =>
    by_cases hk : hd.1 = o
    · have hx : (x == hd.1) = false := by
        simp [hk, h]
      have hxo : (x == o) = false := by simp [h]
      simp only [List.filter, hk, bne_self_eq_false, List.lookup, hx, hxo, ih]
    · have : (hd.1 != o) = true := by simp [hk]
      simp only [List.filter, this, List.lookup, ih]

theorem getOriginData_setOriginData (st : IState) (o x : TOrigin) (d : IOriginData) :
    getOriginData (setOriginData st o d) x = if x = o then d else getOriginData st x := by
  by_cases hx : x = o
  · subst hx
    simp [getOriginData, setOriginData, List.lookup]
  · have hbeq : (x == o) = false := by simp [hx]
    simp [getOriginData, setOriginData, List.lookup, hbeq, lookup_filter_ne _ _ _ hx, hx]

theorem getOriginData_setOriginData_same (st : IState) (o : TOrigin) (d : IOriginData) :
    getOriginData (setOriginData st o d) o = d := by
  simp [getOriginData_setOriginData]

theorem getOriginData_setOriginData_other (st : IState) (o x : TOrigin) (d : IOriginData)
    (h : x ≠ o) : getOriginData (setOriginData st o d) x = getOriginData st x := by
  simp [getOriginData_setOriginData, h]

/-- `link` never touches an `identitiesTotal` or a `currentSession`. -/
theorem link_preserves_nonlink (st : IState) (a b x : TOrigin) :
    ((getOriginData (link st a b) x).identitiesTotal
        = (getOriginData st x).identitiesTotal) ∧
    ((getOriginData (link st a b) x).currentSession
        = (getOriginData st x).currentSession) := by
  rw [link]
  split
  · exact ⟨rfl, rfl⟩
  · rw [getOriginData_setOriginData]
    split
    · rename_i hxb
      subst hxb
      rw [getOriginData_setOriginData]
      split
      · rename_i hba
        subst hba
        exact ⟨rfl, rfl⟩
      · exact ⟨rfl, rfl⟩
    · rw [getOriginData_setOriginData]
      split
      · rename_i hxa
        subst hxa
        exact ⟨rfl, rfl⟩
      · exact ⟨rfl, rfl⟩

/-- Effect of `link` on the outgoing link sets. -/
theorem link_linksTo (st : IState) (a b x : TOrigin)
    (hg : (a == b || linkExists st a b) = false) :
    (getOriginData (link st a b) x).linksTo =
      if x = a then (getOriginData st a).linksTo ++ [b] else (getOriginData st x).linksTo := by
  have hab : a ≠ b := by
    intro hc
    simp [hc] at hg
  rw [link, if_neg (by simp [hg])]
  rw [getOriginData_setOriginData]
  by_cases hxb : x = b
  · subst hxb
    rw [if_pos rfl, getOriginData_setOriginData, if_neg (fun hc => hab hc.symm)]
    rw [if_neg (fun hc => hab hc.symm)]
  · rw [if_neg hxb, getOriginData_setOriginData]
    by_cases hxa : x = a
    · subst hxa
      rw [if_pos rfl, if_pos rfl]
    · rw [if_neg hxa, if_neg hxa]

/-- Effect of `link` on the incoming link sets. -/
theorem link_linksFrom (st : IState) (a b x : TOrigin)
    (hg : (a == b || linkExists st a b) = false) :
    (getOriginData (link st a b) x).linksFrom =
      if x = b then (getOriginData st b).linksFrom ++ [a] else (getOriginData st x).linksFrom := by
  have hab : a ≠ b := by
    intro hc
    simp [hc] at hg
  rw [link, if_neg (by simp [hg])]
  rw [getOriginData_setOriginData]
  by_cases hxb : x = b
  · subst hxb
    rw [if_pos rfl, if_pos rfl, getOriginData_setOriginData, if_neg (fun hc => hab hc.symm)]
  · rw [if_neg hxb, if_neg hxb, getOriginData_setOriginData]
    by_cases hxa : x = a
    · subst hxa
      rw [if_pos rfl]
    · rw [if_neg hxa]

/-- Effect of `unlink` on the outgoing link sets. -/
theorem unlink_linksTo (st : IState) (a b x : TOrigin) :
    (getOriginData (unlink st a b) x).linksTo =
      if x = a then (getOriginData st a).linksTo.filter (· != b)
      else (getOriginData st x).linksTo := by
  rw [unlink, getOriginData_setOriginData]
  by_cases hxb : x = b
  · subst hxb
    rw [if_pos rfl, getOriginData_setOriginData]
    by_cases hba : x = a
    · subst hba
      rw [if_pos rfl, if_pos rfl]
    · rw [if_neg hba, if_neg hba]
  · rw [if_neg hxb, getOriginData_setOriginData]
    by_cases hxa : x = a
    · subst hxa
      rw [if_pos rfl, if_pos rfl]
    · rw [if_neg hxa, if_neg hxa]

/-- Effect of `unlink` on the incoming link sets. -/
theorem unlink_linksFrom (st : IState) (a b x : TOrigin) :
    (getOriginData (unlink st a b) x).linksFrom =
      if x = b then (getOriginData st b).linksFrom.filter (· != a)
      else (getOriginData st x).linksFrom := by
  rw [unlink, getOriginData_setOriginData]
  by_cases hxb : x = b
  · subst hxb
    rw [if_pos rfl, if_pos rfl, getOriginData_setOriginData]
    by_cases hba : x = a
    · subst hba
      rw [if_pos rfl]
    · rw [if_neg hba]
  · rw [if_neg hxb, if_neg hxb, getOriginData_setOriginData]
    by_cases hxa : x = a
    · subst hxa
      rw [if_pos rfl]
    · rw [if_neg hxa]

/-- `unlink` never touches an `identitiesTotal` or a `currentSession`. -/
theorem unlink_preserves_nonlink (st : IState) (a b x : TOrigin) :
    ((getOriginData (unlink st a b) x).identitiesTotal
        = (getOriginData st x).identitiesTotal) ∧
    ((getOriginData (unlink st a b) x).currentSession
        = (getOriginData st x).currentSession) := by
  rw [unlink]
  rw [getOriginData_setOriginData]
  split
  · rename_i hxb
    subst hxb
    rw [getOriginData_setOriginData]
    split
    · rename_i hba
      subst hba
      exact ⟨rfl, rfl⟩
    · exact ⟨rfl, rfl⟩
  · rw [getOriginData_setOriginData]
    split
    · rename_i hxa
      subst hxa
      exact ⟨rfl, rfl⟩
    · exact ⟨rfl, rfl⟩

/-! ### The link-graph consistency invariant (spec 3) -/

/-- The two redundant directions of the link graph agree: an edge `a -> b` is
recorded in `linksTo(a)` iff it is recorded in `linksFrom(b)`. -/
def LinkConsistent (st : IState) : Prop :=
  ∀ a b : TOrigin, b ∈ (getOriginData st a).linksTo ↔ a ∈ (getOriginData st b).linksFrom

theorem linkConsistent_congr (st st' : IState)
    (h : ∀ x, (getOriginData st' x).linksTo = (getOriginData st x).linksTo ∧
              (getOriginData st' x).linksFrom = (getOriginData st x).linksFrom)
    (hc : LinkConsistent st) : LinkConsistent st' := by
  intro a b
  rw [(h a).1, (h b).2]
  exact hc a b

/-- Replacing one origin's record while keeping its link sets preserves all
link sets. -/
theorem links_setOriginData_same_links (st : IState) (o : TOrigin) (d : IOriginData)
    (hTo : d.linksTo = (getOriginData st o).linksTo)
    (hFrom : d.linksFrom = (getOriginData st o).linksFrom) (x : TOrigin) :
    (getOriginData (setOriginData st o d) x).linksTo = (getOriginData st x).linksTo ∧
    (getOriginData (setOriginData st o d) x).linksFrom = (getOriginData st x).linksFrom := by
  rw [getOriginData_setOriginData]
  by_cases hx : x = o
  · rw [if_pos hx, hTo, hFrom, hx]
    exact ⟨rfl, rfl⟩
  · rw [if_neg hx]
    exact ⟨rfl, rfl⟩

theorem link_preserves_consistent (st : IState) (a b : TOrigin)
    (hc : LinkConsistent st) : LinkConsistent (link st a b) := by
  by_cases hg : (a == b || linkExists st a b) = true
  · rw [link, if_pos hg]
    exact hc
  · have hg' : (a == b || linkExists st a b) = false := by
      revert hg
      cases a == b || linkExists st a b <;> simp
    intro x y
    rw [link_linksTo st a b x hg', link_linksFrom st a b y hg']
    by_cases hxa : x = a <;> by_cases hyb : y = b
    · rw [hxa, hyb, if_pos rfl, if_pos rfl]
      simp
    · rw [hxa, if_pos rfl, if_neg hyb]
      simp only [List.mem_append, List.mem_singleton]
      constructor
      · rintro (hy | hy)
        · exact (hc a y).mp hy
        · exact absurd hy hyb
      · intro hy
        exact Or.inl ((hc a y).mpr hy)
    · rw [hyb, if_neg hxa, if_pos rfl]
      simp only [List.mem_append, List.mem_singleton]
      constructor
      · intro hy
        exact Or.inl ((hc x b).mp hy)
      · rintro (hy | hy)
        · exact (hc x b).mpr hy
        · exact absurd hy hxa
    · rw [if_neg hxa, if_neg hyb]
      exact hc x y

theorem unlink_preserves_consistent (st : IState) (a b : TOrigin)
    (hc : LinkConsistent st) : LinkConsistent (unlink st a b) := by
  intro x y
  rw [unlink_linksTo st a b x, unlink_linksFrom st a b y]
  by_cases hxa : x = a <;> by_cases hyb : y = b
  · rw [hxa, hyb, if_pos rfl, if_pos rfl]
    simp [List.mem_filter]
  · rw [hxa, if_pos rfl, if_neg hyb]
    simp only [List.mem_filter, bne_iff_ne, ne_eq, decide_not, Bool.not_eq_eq_eq_not,
      Bool.not_true, decide_eq_false_iff_not]
    constructor
    · rintro ⟨hy, -⟩
      exact (hc a y).mp hy
    · intro hy
      exact ⟨(hc a y).mpr hy, hyb⟩
  · rw [hyb, if_neg hxa, if_pos rfl]
    simp only [List.mem_filter, bne_iff_ne, ne_eq, decide_not, Bool.not_eq_eq_eq_not,
      Bool.not_true, decide_eq_false_iff_not]
    constructor
    · intro hy
      exact ⟨(hc x b).mp hy, hxa⟩
    · rintro ⟨hy, -⟩
      exact (hc x b).mpr hy
  · rw [if_neg hxa, if_neg hyb]
    exact hc x y

/-! ### Reachable states -/

/-- A state is reachable when some sequence of the exposed operations produces
it from the fresh default state.  Query handlers (`getLoginOptions`,
`getLinks`, `sessionExists`, `sign`, `getPublicKey`) never change the modelled
state, so they need no constructor of their own; `sign` is included to cover
its implicit-session path explicitly. -/
inductive Reachable : IState → Prop where
  | init : Reachable emptyState
  | add (st : IState) (o : TOrigin) (h : Reachable st) :
      Reachable (protected_handleIdentityAdd st o).2
  | login (st st' : IState) (toO : TOrigin) (k : TIdentityId) (lo : Option TOrigin)
      (ts : Int) (b : Bool) (h : Reachable st)
      (heq : protected_handleIdentityLogin st toO k lo ts = .ok (b, st')) : Reachable st'
  | logout (st : IState) (o : TOrigin) (agreed : Bool) (h : Reachable st) :
      Reachable (handleIdentityLogoutRequest st o agreed).2
  | link (st st' : IState) (o w : TOrigin) (agreed : Bool) (b : Bool) (h : Reachable st)
      (heq : handleIdentityLinkRequest st o w agreed = .ok (b, st')) : Reachable st'
  | unlink (st : IState) (o w : TOrigin) (agreed : Bool) (h : Reachable st) :
      Reachable (handleIdentityUnlinkRequest st o w agreed).2
  | sign (st st' : IState) (hosts : Hosts) (msqOrigin o : TOrigin) (salt : Option (List Nat))
      (ch sig : List Nat) (h : Reachable st)
      (heq : handleIdentitySign hosts msqOrigin st o salt ch = .ok (sig, st')) : Reachable st'

/-- A successful login only rewrites `toOrigin`'s session. -/
theorem login_ok_state (st st' : IState) (toO : TOrigin) (k : TIdentityId)
    (lo : Option TOrigin) (ts : Int) (b : Bool)
    (heq : protected_handleIdentityLogin st toO k lo ts = .ok (b, st')) :
    st' = setOriginData st toO
      { getOriginData st toO with
        currentSession := some
          { deriviationOrigin := lo.getD toO, identityId := k, timestampMs := ts } } := by
  simp only [protected_handleIdentityLogin] at heq
  split at heq
  · exact absurd heq (by simp)
  · split at heq
    · exact absurd heq (by simp)
    · rw [Except.ok.injEq, Prod.mk.injEq] at heq
      exact heq.2.symm

/-- The link handler either keeps the state or applies `link`. -/
theorem linkRequest_ok_state (st st' : IState) (o w : TOrigin) (agreed b : Bool)
    (heq : handleIdentityLinkRequest st o w agreed = .ok (b, st')) :
    st' = st ∨ st' = link st o w := by
  simp only [handleIdentityLinkRequest] at heq
  split at heq
  · exact absurd heq (by simp)
  · split at heq
    · rw [Except.ok.injEq, Prod.mk.injEq] at heq
      exact Or.inl heq.2.symm
    · split at heq
      · rw [Except.ok.injEq, Prod.mk.injEq] at heq
        exact Or.inl heq.2.symm
      · rw [Except.ok.injEq, Prod.mk.injEq] at heq
        exact Or.inr heq.2.symm

/-- The logout handler either keeps the state or rewrites one session. -/
theorem logout_state (st : IState) (o : TOrigin) (agreed : Bool) :
    (handleIdentityLogoutRequest st o agreed).2 = st ∨
    (handleIdentityLogoutRequest st o agreed).2 =
      setOriginData st o { getOriginData st o with currentSession := none } := by
  simp only [handleIdentityLogoutRequest]
  cases hcs : (getOriginData st o).currentSession with
  | none => exact Or.inl rfl
  | some s =>
    dsimp only
    split
    · exact Or.inl rfl
    · exact Or.inr rfl

/-- The unlink handler either keeps the state or applies `unlink` followed by
a session-only rewrite of `withOrigin`'s record. -/
theorem unlinkRequest_state (st : IState) (o w : TOrigin) (agreed : Bool) :
    (handleIdentityUnlinkRequest st o w agreed).2 = st ∨
    ∃ d : IOriginData,
      (handleIdentityUnlinkRequest st o w agreed).2 = setOriginData (unlink st o w) w d ∧
      d.linksTo = (getOriginData (unlink st o w) w).linksTo ∧
      d.linksFrom = (getOriginData (unlink st o w) w).linksFrom := by
  simp only [handleIdentityUnlinkRequest]
  split
  · exact Or.inl rfl
  · split
    · exact Or.inl rfl
    · refine Or.inr ?_
      cases hcs : (getOriginData (unlink st o w) w).currentSession with
      | none => exact ⟨_, rfl, rfl, rfl⟩
      | some s =>
        dsimp only
        split
        · exact ⟨_, rfl, rfl, rfl⟩
        · exact ⟨_, rfl, rfl, rfl⟩

/-- The sign handler never changes the state. -/
theorem sign_state (hosts : Hosts) (msqOrigin : TOrigin) (st st' : IState) (o : TOrigin)
    (salt : Option (List Nat)) (ch sig : List Nat)
    (heq : handleIdentitySign hosts msqOrigin st o salt ch = .ok (sig, st')) : st' = st := by
  simp only [handleIdentitySign] at heq
  cases hcs : (getOriginData st o).currentSession with
  | none =>
    rw [hcs] at heq
    dsimp only at heq
    split at heq
    · rw [Except.ok.injEq, Prod.mk.injEq] at heq
      exact heq.2.symm
    · exact absurd heq (by simp)
  | some s =>
    rw [hcs] at heq
    dsimp only at heq
    rw [Except.ok.injEq, Prod.mk.injEq] at heq
    exact heq.2.symm

theorem reachable_linkConsistent (st : IState) (h : Reachable st) : LinkConsistent st := by
  induction h with
  | init =>
    intro a b
    simp [getOriginData, emptyState, List.lookup, defaultOriginData]
  | add st o h ih =>
    refine linkConsistent_congr st _ (fun x => ?_) ih
    refine links_setOriginData_same_links st o _ ?_ ?_ x <;> rfl
  | login st st' toO k lo ts b h heq ih =>
    rw [login_ok_state st st' toO k lo ts b heq]
    refine linkConsistent_congr st _ (fun x => ?_) ih
    refine links_setOriginData_same_links st toO _ ?_ ?_ x <;> rfl
  | logout st o agreed h ih =>
    rcases logout_state st o agreed with hs | hs
    · rw [hs]
      exact ih
    · rw [hs]
      refine linkConsistent_congr st _ (fun x => ?_) ih
      refine links_setOriginData_same_links st o _ ?_ ?_ x <;> rfl
  | link st st' o w agreed b h heq ih =>
    rcases linkRequest_ok_state st st' o w agreed b heq with hs | hs
    · rw [hs]
      exact ih
    · rw [hs]
      exact link_preserves_consistent st o w ih
  | unlink st o w agreed h ih =>
    rcases unlinkRequest_state st o w agreed with hs | hs
    · rw [hs]
      exact ih
    · obtain ⟨d, hs, hTo, hFrom⟩ := hs
      rw [hs]
      refine linkConsistent_congr _ _ (fun x => ?_)
        (unlink_preserves_consistent st o w ih)
      exact links_setOriginData_same_links _ w d hTo hFrom x
  | sign st st' hosts msqOrigin o salt ch sig h heq ih =>
    rw [sign_state hosts msqOrigin st st' o salt ch sig heq]
    exact ih

/-! ### Label injectivity for key derivation -/

theorem string_data_inj {s t : String} (h : s.data = t.data) : s = t := by
  cases s
  cases t
  exact congrArg String.mk h

theorem entropySalt_inj_origin (o o' : TOrigin) (i : TIdentityId) (p : String)
    (h : entropySalt o i p = entropySalt o' i p) : o = o' := by
  have hd := congrArg String.data h
  simp only [entropySalt, String.data_append, List.append_assoc,
    List.append_cancel_left_eq, List.append_cancel_right_eq] at hd
  exact string_data_inj hd

theorem entropySalt_inj_index (o : TOrigin) (i i' : TIdentityId) (p : String)
    (h : entropySalt o i p = entropySalt o i' p) : i = i' := by
  have hd := congrArg String.data h
  simp only [entropySalt, String.data_append, List.append_assoc,
    List.append_cancel_left_eq, List.append_cancel_right_eq] at hd
  exact nat_repr_inj (string_data_inj hd)

theorem entropySalt_inj_purpose (o : TOrigin) (i : TIdentityId) (p p' : String)
    (h : entropySalt o i p = entropySalt o i p') : p = p' := by
  have hd := congrArg String.data h
  simp only [entropySalt, String.data_append, List.append_assoc,
    List.append_cancel_left_eq, List.append_cancel_right_eq] at hd
  exact string_data_inj hd

/-- Raw public key of the key pair derived for an origin, index and purpose
(no custom salt), as exported by `identity.getPublicKey().toRaw()`. -/
def derivedPub (hosts : Hosts) (origin : TOrigin) (i : TIdentityId) (purpose : String) :
    List Nat :=
  hosts.pubKeyRaw (getEntropy hosts origin i purpose none)

/-! ### Concrete fixtures for witnesses and counterexamples -/

def originA : TOrigin := "https://a.example"

def originB : TOrigin := "https://b.example"

/-- Concrete hosts whose label-to-key pipeline is injective: entropy is the
code-point list of the label, hashing and key export are the identity. -/
def encHosts : Hosts :=
  { getEntropyBytes := fun s => s.data.map Char.toNat
    sha256 := id
    pubKeyRaw := id
    principalOf := fun l => (l.map Char.ofNat).asString
    sign := fun k c => k ++ c }

theorem encHosts_pipeline_inj (l l' : String)
    (h : encHosts.pubKeyRaw (encHosts.sha256 (encHosts.getEntropyBytes l))
        = encHosts.pubKeyRaw (encHosts.sha256 (encHosts.getEntropyBytes l'))) : l = l' := by
  have hinjc : Function.Injective Char.toNat := by
    intro a b hab
    rw [← Char.ofNat_toNat a, hab, Char.ofNat_toNat]
  have hd : l.data.map Char.toNat = l'.data.map Char.toNat := h
  exact string_data_inj (List.map_injective_iff.mpr hinjc hd)

/-- State with one identity on A, an edge A -> B and zero identities on B. -/
def stC1 : IState :=
  ⟨[(originA, ⟨1, [], [originB], none⟩), (originB, ⟨0, [originA], [], none⟩)]⟩

/-- State with one identity on A and nothing else. -/
def stC2 : IState := ⟨[(originA, ⟨1, [], [], none⟩)]⟩

/-- State with an identity and a session on A, plus an edge A -> B. -/
def stC3 : IState :=
  ⟨[(originA, ⟨1, [], [originB], some ⟨0, originA, 0⟩⟩), (originB, ⟨0, [originA], [], none⟩)]⟩

/-- State with an edge A -> B and a session on B borrowed from A. -/
def stC7 : IState :=
  ⟨[(originA, ⟨1, [], [originB], none⟩), (originB, ⟨0, [originA], [], some ⟨0, originA, 0⟩⟩)]⟩

/-- Two identities registered on A (through the handler), then A linked to B
(through `link`, the state the link handler produces on consent). -/
def stAdd2 : IState :=
  (protected_handleIdentityAdd (protected_handleIdentityAdd emptyState originA).2 originA).2

def stTwoMasksLinked : IState := link stAdd2 originA originB

/-! ### Claims -/

/-- C4: for every origin, identity index, purpose label and optional custom
salt, the derived key equals the reference algorithm of the spec: build a
label from a fixed namespace tag, the origin, the index and the purpose,
request entropy for exactly that label, append the custom salt bytes when
present, and hash with SHA-256 to obtain the secp256k1 private key; and
`getSignIdentity` is exactly this derivation at the fixed signing purpose
label. -/
theorem c4_derivation_matches_reference (hosts : Hosts) (origin : TOrigin)
    (identityIndex : TIdentityId) (purposeLabel : String) (customSalt : Option (List Nat)) :
    getEntropy hosts origin identityIndex purposeLabel customSalt
      = specDeriveKey hosts origin identityIndex purposeLabel customSalt ∧
    getSignIdentity hosts origin identityIndex customSalt
      = specDeriveKey hosts origin identityIndex "identity-sign\nshared" customSalt := by
  refine ⟨?_, ?_⟩ <;>
    cases customSalt <;>
      simp [getEntropy, specDeriveKey, getSignIdentity, entropySalt]

/-- C5: key derivation is deterministic (a pure function of its inputs), and
input-separated: under an entropy-source-and-key pipeline that is an injective
function of the label (the spec's with-overwhelming-probability
collision-freeness), changing exactly one of origin, identity index or purpose
changes the entropy label, and hence the derived public key. -/
theorem c5_deterministic_and_separated (hosts : Hosts)
    (hinj : ∀ l l' : String,
      hosts.pubKeyRaw (hosts.sha256 (hosts.getEntropyBytes l))
          = hosts.pubKeyRaw (hosts.sha256 (hosts.getEntropyBytes l')) → l = l') :
    (∀ o i p cs, getEntropy hosts o i p cs = getEntropy hosts o i p cs) ∧
    (∀ o o' i p, o ≠ o' →
      entropySalt o i p ≠ entropySalt o' i p ∧
      derivedPub hosts o i p ≠ derivedPub hosts o' i p) ∧
    (∀ o i i' p, i ≠ i' →
      entropySalt o i p ≠ entropySalt o i' p ∧
      derivedPub hosts o i p ≠ derivedPub hosts o i' p) ∧
    (∀ o i p p', p ≠ p' →
      entropySalt o i p ≠ entropySalt o i p' ∧
      derivedPub hosts o i p ≠ derivedPub hosts o i p') := by
  refine ⟨fun o i p cs => rfl, fun o o' i p hne => ⟨?_, ?_⟩,
    fun o i i' p hne => ⟨?_, ?_⟩, fun o i p p' hne => ⟨?_, ?_⟩⟩
  · exact fun hc => hne (entropySalt_inj_origin o o' i p hc)
  · exact fun hc => hne (entropySalt_inj_origin o o' i p (hinj _ _ hc))
  · exact fun hc => hne (entropySalt_inj_index o i i' p hc)
  · exact fun hc => hne (entropySalt_inj_index o i i' p (hinj _ _ hc))
  · exact fun hc => hne (entropySalt_inj_purpose o i p p' hc)
  · exact fun hc => hne (entropySalt_inj_purpose o i p p' (hinj _ _ hc))

/-- C5 witness: at the concrete injective pipeline `encHosts`, two distinct
origins give a distinct label and a distinct public key. -/
theorem c5_witness :
    entropySalt originA 0 "identity-sign\nshared"
        ≠ entropySalt originB 0 "identity-sign\nshared" ∧
    derivedPub encHosts originA 0 "identity-sign\nshared"
        ≠ derivedPub encHosts originB 0 "identity-sign\nshared" :=
  (c5_deterministic_and_separated encHosts encHosts_pipeline_inj).2.1
    originA originB 0 "identity-sign\nshared" (by decide)

/-- C1 counterexample: the claim as stated is false on the code.  With one
identity on A, an edge A -> B and zero identities on B, the scenario login
`login(toOrigin = B, derivationOrigin = A, index = 0)` fails with the
Unreachable error even though `identitiesTotal(A) = 1 ≥ 1`; and with one
identity on A, `login(toOrigin = A, index = 5)` succeeds even though
`5 ≥ identitiesTotal(A)`, so an out-of-range index raises no error. -/
theorem c1_counterexample :
    (linkExists stC1 originA originB = true ∧
     1 ≤ (getOriginData stC1 originA).identitiesTotal ∧
     protected_handleIdentityLogin stC1 originB 0 (some originA) 0
       = .error .unreacheable) ∧
    ((getOriginData stC2 originA).identitiesTotal ≤ 5 ∧
     protected_handleIdentityLogin stC2 originA 5 none 0
       = .ok (true, ⟨[(originA, ⟨1, [], [], some ⟨5, originA, 0⟩⟩)]⟩)) :=
  ⟨⟨rfl, by decide, rfl⟩, ⟨by decide, rfl⟩⟩

/-- C1 (amended): the login handler never validates the identity index and
checks the login origin's identity count, not the derivation origin's: after
the link check passes, login raises the Unreachable/Invariant error iff
`identitiesTotal(toOrigin) = 0`; in particular, after `link(A, B)`,
`login(toOrigin = B, derivationOrigin = A, index = 0)` succeeds iff
`identitiesTotal(B) ≥ 1`, whatever `identitiesTotal(A)` is. -/
theorem c1_amended (st : IState) (A B : TOrigin) (k : TIdentityId) (ts : Int)
    (hlink : linkExists st A B = true) :
    ((getOriginData st B).identitiesTotal ≠ 0 →
      protected_handleIdentityLogin st B k (some A) ts
        = .ok (true, setOriginData st B
            { getOriginData st B with currentSession := some ⟨k, A, ts⟩ })) ∧
    ((getOriginData st B).identitiesTotal = 0 →
      protected_handleIdentityLogin st B k (some A) ts = .error .unreacheable) := by
  have hguard : (A != B && !(linkExists st A B)) = false := by
    rw [hlink]
    simp
  constructor
  · intro hne
    simp only [protected_handleIdentityLogin, hguard, Bool.false_eq_true, if_false]
    rw [if_neg (by simp [hne])]
    rfl
  · intro hz
    simp only [protected_handleIdentityLogin, hguard, Bool.false_eq_true, if_false]
    rw [if_pos (by simp [hz])]

/-- C1 witness: on the concrete state with `identitiesTotal(B) = 0` the
amended claim yields the Unreachable error for the scenario login. -/
theorem c1_amended_witness :
    protected_handleIdentityLogin stC1 originB 0 (some originA) 0
      = .error .unreacheable :=
  (c1_amended stC1 originA originB 0 0 (by decide)).2 (by decide)

/-- C2: a login that borrows a different derivation origin fails Unauthorized
unless that origin granted a link to the login origin; a login with the
derivation origin equal to the login origin and an in-range index succeeds
and sets the current session. -/
theorem c2_login_precondition (st : IState) (X Y : TOrigin) (k : TIdentityId) (ts : Int) :
    (Y ≠ X → linkExists st Y X = false →
      protected_handleIdentityLogin st X k (some Y) ts = .error .unauthorized) ∧
    (k < (getOriginData st X).identitiesTotal →
      protected_handleIdentityLogin st X k (some X) ts
        = .ok (true, setOriginData st X
            { getOriginData st X with currentSession := some ⟨k, X, ts⟩ }) ∧
      (getOriginData
          (setOriginData st X { getOriginData st X with currentSession := some ⟨k, X, ts⟩ })
          X).currentSession = some ⟨k, X, ts⟩) := by
  constructor
  · intro hne hnolink
    simp only [protected_handleIdentityLogin]
    rw [if_pos (by simp [hne, hnolink])]
  · intro hk
    have hne : (getOriginData st X).identitiesTotal ≠ 0 := Nat.not_eq_zero_of_lt hk
    refine ⟨?_, ?_⟩
    · have hguard : (X != X && !(linkExists st X X)) = false := by simp
      simp only [protected_handleIdentityLogin, hguard, Bool.false_eq_true, if_false]
      rw [if_neg (by simp [hne])]
      rfl
    · rw [getOriginData_setOriginData_same]

/-- C2 witness: unauthorized cross-origin login on the empty state, and a
successful same-origin login that records the session on `stC2`. -/
theorem c2_witness :
    protected_handleIdentityLogin emptyState originB 0 (some originA) 0
      = .error .unauthorized ∧
    (getOriginData
        (setOriginData stC2 originA
          { getOriginData stC2 originA with currentSession := some ⟨0, originA, 7⟩ })
        originA).currentSession = some ⟨0, originA, 7⟩ :=
  ⟨(c2_login_precondition emptyState originB originA 0 0).1 (by decide) rfl,
   ((c2_login_precondition stC2 originA originB 0 7).2 (by decide)).2⟩

/-- C3: when the consent dialog is declined (`agreed = false`), each of the
logout, link and unlink handlers leaves the state unchanged, and in the
branch that actually consulted the dialog (a session exists for logout; a
non-self, not-yet-linked pair for link; an existing edge for unlink) the
handler returns `false` to the caller. -/
theorem c3_declined_consent (st : IState) (o w : TOrigin) :
    ((handleIdentityLogoutRequest st o false).2 = st) ∧
    ((getOriginData st o).currentSession ≠ none →
      handleIdentityLogoutRequest st o false = (false, st)) ∧
    (∀ r st', handleIdentityLinkRequest st o w false = .ok (r, st') → st' = st) ∧
    (o ≠ w → linkExists st o w = false →
      handleIdentityLinkRequest st o w false = .ok (false, st)) ∧
    ((handleIdentityUnlinkRequest st o w false).2 = st) ∧
    (linkExists st o w = true → handleIdentityUnlinkRequest st o w false = (false, st)) := by
  refine ⟨?_, ?_, ?_, ?_, ?_, ?_⟩
  · simp only [handleIdentityLogoutRequest]
    cases (getOriginData st o).currentSession with
    | none => rfl
    | some s => rfl
  · intro hs
    simp only [handleIdentityLogoutRequest]
    cases hcs : (getOriginData st o).currentSession with
    | none => exact absurd hcs hs
    | some s => rfl
  · intro r st' heq
    simp only [handleIdentityLinkRequest] at heq
    split at heq
    · exact absurd heq (by simp)
    · split at heq
      · rw [Except.ok.injEq, Prod.mk.injEq] at heq
        exact heq.2.symm
      · have heq2 : (Except.ok (false, st) : Except ErrorCode (Bool × IState))
            = .ok (r, st') := heq
        rw [Except.ok.injEq, Prod.mk.injEq] at heq2
        exact heq2.2.symm
  · intro hne hnolink
    simp only [handleIdentityLinkRequest]
    rw [if_neg (by simp [hne]), if_neg (by simp [hnolink])]
    rfl
  · simp only [handleIdentityUnlinkRequest]
    split
    · rfl
    · rfl
  · intro hex
    simp only [handleIdentityUnlinkRequest]
    rw [if_neg (by simp [hex])]
    rfl

/-- C3 witness: declining the dialog on the concrete state `stC3` makes
logout, unlink and (from B's side) link all return `false` unchanged. -/
theorem c3_witness :
    handleIdentityLogoutRequest stC3 originA false = (false, stC3) ∧
    handleIdentityUnlinkRequest stC3 originA originB false = (false, stC3) ∧
    handleIdentityLinkRequest stC3 originB originA false = .ok (false, stC3) :=
  ⟨(c3_declined_consent stC3 originA originB).2.1 (by decide),
   (c3_declined_consent stC3 originA originB).2.2.2.2.2 (by decide),
   (c3_declined_consent stC3 originB originA).2.2.2.1 (by decide) (by decide)⟩

/-- C6: in every state reachable by any sequence of the exposed operations,
the link graph is represented consistently in both directions: an edge
`A -> B` is present in `linksTo(A)` iff it is present in `linksFrom(B)`. -/
theorem c6_link_graph_consistent (st : IState) (h : Reachable st) : LinkConsistent st :=
  reachable_linkConsistent st h

/-- C6 witness: the state the link handler produces from the empty state by
linking A to B is reachable and consistent. -/
theorem c6_witness :
    LinkConsistent ⟨[(originB, ⟨0, [originA], [], none⟩), (originA, ⟨0, [], [originB], none⟩)]⟩ :=
  c6_link_graph_consistent _
    (Reachable.link emptyState _ originA originB true true Reachable.init rfl)

/-- Evaluates a confirmed unlink on the target origin's session. -/
theorem unlinkRequest_confirmed_session (st : IState) (Y X : TOrigin) (s : ISession)
    (hex : linkExists st Y X = true)
    (hs : (getOriginData st X).currentSession = some s) :
    (getOriginData (handleIdentityUnlinkRequest st Y X true).2 X).currentSession
      = if s.deriviationOrigin = Y then none else some s := by
  have hses : (getOriginData (unlink st Y X) X).currentSession = some s := by
    rw [(unlink_preserves_nonlink st Y X X).2, hs]
  simp only [handleIdentityUnlinkRequest]
  rw [if_neg (by simp [hex]), if_neg (by simp), hses]
  dsimp only
  rw [getOriginData_setOriginData_same]
  by_cases hd : s.deriviationOrigin = Y
  · rw [if_pos hd]
    rw [if_pos (by simp [hd])]
  · rw [if_neg hd]
    rw [if_neg (by simp [hd])]
    exact hses

/-- C7: a confirmed unlink of grantor Y from grantee X clears X's session
when that session borrows Y's masks, and leaves a session borrowed from any
other origin in place. -/
theorem c7_unlink_cascades_logout (st : IState) (Y X : TOrigin) (s : ISession)
    (hex : linkExists st Y X = true)
    (hs : (getOriginData st X).currentSession = some s) :
    (s.deriviationOrigin = Y →
      (getOriginData (handleIdentityUnlinkRequest st Y X true).2 X).currentSession = none) ∧
    (s.deriviationOrigin ≠ Y →
      (getOriginData (handleIdentityUnlinkRequest st Y X true).2 X).currentSession = some s) := by
  constructor
  · intro hd
    rw [unlinkRequest_confirmed_session st Y X s hex hs, if_pos hd]
  · intro hd
    rw [unlinkRequest_confirmed_session st Y X s hex hs, if_neg hd]

/-- C7 witness: on the concrete state `stC7`, the confirmed `unlink(A, B)`
clears B's session, whose derivation origin is A. -/
theorem c7_witness :
    (getOriginData (handleIdentityUnlinkRequest stC7 originA originB true).2
        originB).currentSession = none :=
  (c7_unlink_cascades_logout stC7 originA originB ⟨0, originA, 0⟩ (by decide) rfl).1 rfl

/-- C8: link and unlink are idempotent at the handler level.  When the edge
already exists the link handler returns `(true, st)` whatever the dialog
would say (it is never shown); when the edge is absent the unlink handler
returns `(true, st)` whatever the dialog would say; and a first confirmed
link stores exactly one copy of the edge, after which a second link call
changes nothing. -/
theorem c8_link_unlink_idempotent (st : IState) (A B : TOrigin) (hAB : A ≠ B) :
    (linkExists st A B = true →
      ∀ agreed, handleIdentityLinkRequest st A B agreed = .ok (true, st)) ∧
    (linkExists st A B = false →
      ∀ agreed, handleIdentityUnlinkRequest st A B agreed = (true, st)) ∧
    (linkExists st A B = false →
      handleIdentityLinkRequest st A B true = .ok (true, link st A B) ∧
      (getOriginData (link st A B) A).linksTo.count B = 1 ∧
      ∀ agreed, handleIdentityLinkRequest (link st A B) A B agreed
        = .ok (true, link st A B)) := by
  have hself : (A == B) = false := by simp [hAB]
  refine ⟨?_, ?_, ?_⟩
  · intro hex agreed
    simp only [handleIdentityLinkRequest]
    rw [if_neg (by simp [hAB]), if_pos hex]
  · intro hno agreed
    simp only [handleIdentityUnlinkRequest]
    rw [if_pos (by simp [hno])]
  · intro hno
    have hg : (A == B || linkExists st A B) = false := by
      rw [hself, hno]
      rfl
    have hmem : B ∈ (getOriginData (link st A B) A).linksTo := by
      rw [link_linksTo st A B A hg, if_pos rfl]
      simp
    have hex2 : linkExists (link st A B) A B = true := by
      rw [linkExists]
      exact List.elem_eq_true_of_mem hmem
    refine ⟨?_, ?_, ?_⟩
    · simp only [handleIdentityLinkRequest]
      rw [if_neg (by simp [hAB]), if_neg (by simp [hno])]
      rfl
    · rw [link_linksTo st A B A hg, if_pos rfl, List.count_append]
      have hnomem : ¬ B ∈ (getOriginData st A).linksTo := by
        intro hc
        have hc2 : (getOriginData st A).linksTo.contains B = true :=
          List.elem_eq_true_of_mem hc
        rw [linkExists] at hno
        rw [hno] at hc2
        exact Bool.false_ne_true hc2
      rw [List.count_eq_zero.mpr hnomem]
      simp
    · intro agreed
      simp only [handleIdentityLinkRequest]
      rw [if_neg (by simp [hAB]), if_pos hex2]

/-- C8 witness: from the empty state, a first confirmed link of A to B stores
the edge exactly once, and a second call (with either dialog outcome) returns
success without change; unlink on the still-absent reverse edge is a no-op. -/
theorem c8_witness :
    handleIdentityLinkRequest (link emptyState originA originB) originA originB false
      = .ok (true, link emptyState originA originB) ∧
    (getOriginData (link emptyState originA originB) originA).linksTo.count originB = 1 ∧
    handleIdentityUnlinkRequest emptyState originA originB true = (true, emptyState) :=
  ⟨((c8_link_unlink_idempotent emptyState originA originB (by decide)).2.2 rfl).2.2 false,
   ((c8_link_unlink_idempotent emptyState originA originB (by decide)).2.2 rfl).2.1,
   (c8_link_unlink_idempotent emptyState originA originB (by decide)).2.1 rfl true⟩

/-- C9: `getLoginOptions(forOrigin)` lists the queried origin first and then
its `linksFrom` origins in stored order, each group holding exactly that
source origin's `identitiesTotal` principals obtained by key derivation; in
particular, after two identities on A and a link A -> B, the options for B
are B's empty group followed by A's two derived principals. -/
theorem c9_login_options (hosts : Hosts) (st : IState) (forOrigin : TOrigin) :
    ((protected_handleIdentityGetLoginOptions hosts st forOrigin).map Prod.fst
      = forOrigin :: (getOriginData st forOrigin).linksFrom) ∧
    (∀ p ∈ protected_handleIdentityGetLoginOptions hosts st forOrigin,
      p.2 = (List.range (getOriginData st p.1).identitiesTotal).map
        (fun i => hosts.principalOf (getSignIdentity hosts p.1 i none))) ∧
    (handleIdentityLinkRequest stAdd2 originA originB true = .ok (true, stTwoMasksLinked) ∧
     protected_handleIdentityGetLoginOptions hosts stTwoMasksLinked originB
       = [(originB, []),
          (originA, [hosts.principalOf (getSignIdentity hosts originA 0 none),
                     hosts.principalOf (getSignIdentity hosts originA 1 none)])]) := by
  refine ⟨?_, ?_, rfl, rfl⟩
  · simp only [protected_handleIdentityGetLoginOptions, List.map_cons, List.map_map]
    exact congrArg (List.cons forOrigin) (List.map_id'' (fun o => rfl) _)
  · intro p hp
    simp only [protected_handleIdentityGetLoginOptions, List.mem_cons, List.mem_map] at hp
    rcases hp with hp | ⟨o, -, hp⟩
    · rw [hp]
      rfl
    · rw [← hp]
      rfl

/-- C9 witness: B's own group in the scenario state is exactly its (empty)
set of derived principals. -/
theorem c9_witness :
    (originB, ([] : List String)).2
      = (List.range (getOriginData stTwoMasksLinked originB).identitiesTotal).map
          (fun i => encHosts.principalOf (getSignIdentity encHosts originB i none)) :=
  (c9_login_options encHosts stTwoMasksLinked originB).2.1 (originB, [])
    (List.mem_cons_self _ _)

/-- C10: signing without a stored session fails Unauthorized for every origin
other than the Masquerade site origin; the Masquerade site origin signs with
an implicit session of identity index 0 and derivation origin itself. -/
theorem c10_sign_without_session (hosts : Hosts) (msqOrigin : TOrigin) (st : IState)
    (origin : TOrigin) (salt : Option (List Nat)) (ch : List Nat)
    (hno : (getOriginData st origin).currentSession = none) :
    (isMasquerade msqOrigin origin = false →
      handleIdentitySign hosts msqOrigin st origin salt ch = .error .unauthorized) ∧
    (isMasquerade msqOrigin origin = true →
      handleIdentitySign hosts msqOrigin st origin salt ch
        = .ok (hosts.sign (getSignIdentity hosts origin 0 salt) ch, st)) := by
  simp only [handleIdentitySign, hno]
  constructor
  · intro hm
    rw [if_neg (by simp [hm])]
  · intro hm
    rw [if_pos hm]

/-- C10 witness: on the empty state, signing from B fails Unauthorized when
the Masquerade origin is A, and succeeds with the implicit identity-0 session
when the caller is the Masquerade origin itself. -/
theorem c10_witness :
    handleIdentitySign encHosts originA emptyState originB none [1, 2]
      = .error .unauthorized ∧
    handleIdentitySign encHosts originA emptyState originA none [1, 2]
      = .ok (encHosts.sign (getSignIdentity encHosts originA 0 none) [1, 2], emptyState) :=
  ⟨(c10_sign_without_session encHosts originA emptyState originB none [1, 2] rfl).1 (by decide),
   (c10_sign_without_session encHosts originA emptyState originA none [1, 2] rfl).2 (by decide)⟩

end Msq
